import Mathlib

/-!
Verification of the csv-export-mcp server (`src/csv_export_mcp/server.py`).

Shallow embedding of the core routine: record-to-CSV conversion
(`convert_to_csv`, backed by Python's `csv.DictWriter` semantics),
size-string computation (`get_file_size_string`), filename sanitization,
and the `csv_export` tool handler (`handle_call_tool`), together with a
spec-side standard CSV parser used for the round-trip property.

Python strings are modelled as Lean `String` (lists of unicode scalar
values); machine floats in `get_file_size_string` are modelled as exact
rationals (the quotients by powers of two taken there are exact in IEEE
doubles for all realistic sizes); the per-call `uuid.uuid4()` value and
the filesystem are passed in explicitly as parameters.
-/

namespace CsvExport

deriving instance DecidableEq for Except

/-! ## Scalar values and records

A record is a Python dict from field name to scalar value, modelled as an
association list in insertion order (Python dicts preserve insertion
order and have no duplicate keys). -/

/-- A JSON scalar value as it arrives in a record. -/
inductive Value
  | str (s : String)
  | int (n : Int)
  | bool (b : Bool)
  | null
deriving DecidableEq, Repr

/-- How Python's `csv` writer stringifies a cell: strings pass through,
`None` becomes the empty field, other scalars go through `str()`. -/
def Value.toField : Value → String
  | .str s => s
  | .int n => toString n
  | .bool b => if b then "True" else "False"
  | .null => ""

/-- One record: an ordered association list of field name to value. -/
abbrev Row : Type := List (String × Value)

/-- `list(row.keys())`: the field names in insertion order. -/
def rowKeys (row : Row) : List String := row.map Prod.fst

/-- `row.get(key, restval)` with `DictWriter`'s default `restval = ''`:
the first binding of `key`, or the empty string if absent. -/
def dictGet (row : Row) (key : String) : Value :=
  match row.find? (fun kv => kv.1 == key) with
  | some kv => kv.2
  | none => .str ""

/-! ## The csv writer (Python `_csv` semantics, dialect `excel` with a
delimiter override): QUOTE_MINIMAL quoting, quote char `"`, internal
quotes doubled, line terminator `"\r\n"`, and the special case that a
record consisting of exactly one empty unquoted field is written as a
quoted empty field `""`. -/

/-- Double every quote character (the body of a quoted field). -/
def escQ : List Char → List Char
  | [] => []
  | c :: cs => if c = '"' then '"' :: '"' :: escQ cs else c :: escQ cs

/-- QUOTE_MINIMAL: a field must be quoted iff it contains the delimiter,
the quote char, or a CR/LF. -/
def needsQuote (d : Char) (cs : List Char) : Bool :=
  cs.any (fun c => c == d || c == '"' || c == '\r' || c == '\n')

/-- Write one field under QUOTE_MINIMAL. -/
def encFieldL (d : Char) (cs : List Char) : List Char :=
  if needsQuote d cs then '"' :: (escQ cs ++ ['"']) else cs

/-- Join already-encoded fields with the delimiter. -/
def joinSep (d : Char) : List (List Char) → List Char
  | [] => []
  | [f] => f
  | f :: g :: fs => f ++ d :: joinSep d (g :: fs)

/-- `csv.writer.writerow`: encode each field, join with the delimiter,
append `"\r\n"`; a record whose only field is empty is written `""`. -/
def encRowL (d : Char) (fs : List (List Char)) : List Char :=
  (match fs with
   | [f] => if f.isEmpty then ['"', '"'] else encFieldL d f
   | _ => joinSep d (fs.map (encFieldL d))) ++ ['\r', '\n']

/-- `writerow` on a list of `String` fields. -/
def encRowS (d : Char) (fs : List String) : List Char :=
  encRowL d (fs.map String.data)

/-- `DictWriter._dict_to_list` followed by stringification: rejects a row
carrying a key outside `fieldnames` (`extrasaction='raise'` is the
default), otherwise reads each fieldname with `restval = ''`. -/
def dictToFields (fieldnames : List String) (row : Row) : Except String (List String) :=
  if row.any (fun kv => !(fieldnames.contains kv.1)) then
    .error "dict contains fields not in fieldnames"
  else
    .ok (fieldnames.map (fun k => (dictGet row k).toField))

/-- Sequence a fallible map over a list, stopping at the first error
(the behaviour of the Python `for row in data: writer.writerow(row)`
loop, whose first exception aborts the conversion). -/
def mapExc (f : α → Except String β) : List α → Except String (List β)
  | [] => .ok []
  | a :: as =>
    match f a with
    | .error e => .error e
    | .ok b =>
      match mapExc f as with
      | .error e => .error e
      | .ok bs => .ok (b :: bs)

/-- Concatenate encoded rows. -/
def catL : List (List Char) → List Char
  | [] => []
  | l :: ls => l ++ catL ls

/-- `convert_to_csv(data, delimiter, include_headers)`:
empty data returns `""`; otherwise headers are the first record's keys,
`csv.DictWriter` (which rejects a delimiter that is not exactly one
character, and raises on a row with keys outside the headers) writes the
optional header row and then every record positionally. Exceptions are
modelled as `Except.error`. -/
def convert_to_csv (data : List Row) (delimiter : String) (include_headers : Bool) :
    Except String String :=
  match data with
  | [] => .ok ""
  | first :: _ =>
    match delimiter.data with
    | [d] =>
      let headers := rowKeys first
      match mapExc (dictToFields headers) data with
      | .error e => .error e
      | .ok rows =>
        .ok (String.mk ((if include_headers then encRowS d headers else []) ++
          catL (rows.map (encRowS d))))
    | _ => .error "delimiter must be a 1-character string"

/-! ## Size string (`get_file_size_string`)

`kb = len(content.encode('utf-8')) / 1024` is a Python float; for every
byte count below `2^53` the divisions by `1024` (and by `1024` again for
MB) are exact in an IEEE double, so `kb` is the exact fraction
`bytes / 1024`. Python's `f"{x:.nf}"` rounds the exact value of the
float to `n` decimal places with ties to the even last digit. The
executable model computes on the fraction `num / den` by integer
arithmetic: `kb < 1024` is `bytes < 1024 * 1024`, `kb >= 1` is
`1024 <= bytes`, and rounding half-to-even of `num / den` is
`roundHalfEvenND num den`. The theorem for claim C5 re-states all of
this over `ℚ` (`roundQ`, `specFmt0`, `specFmt2`) and proves the two
presentations equal. -/

/-- Round the fraction `num / den` (with `den > 0`) to the nearest
integer, ties to the even integer — the rounding used by Python float
formatting on exactly representable values. -/
def roundHalfEvenND (num den : ℕ) : ℕ :=
  let q := num / den
  let r := num % den
  if 2 * r < den then q
  else if den < 2 * r then q + 1
  else if q % 2 = 0 then q else q + 1

/-- Python `f"{num / den:.0f}"` (for nonnegative exact fractions). -/
def fmt0 (num den : ℕ) : String := toString (roundHalfEvenND num den)

/-- Two-digit zero-padded rendering of `n < 100`. -/
def pad2 (n : ℕ) : String := if n < 10 then "0" ++ toString n else toString n

/-- Python `f"{num / den:.2f}"` (for nonnegative exact fractions):
round `100 * num / den` half-to-even, then print with two decimals. -/
def fmt2 (num den : ℕ) : String :=
  let n := roundHalfEvenND (100 * num) den
  toString (n / 100) ++ "." ++ pad2 (n % 100)

/-- The body of `get_file_size_string` after the byte length is taken:
`kb = bytes_size / 1024`; if `kb < 1024` the string is `f"{kb:.0f} KB"`
when `kb >= 1` and `"1 KB"` otherwise, else `f"{kb / 1024:.2f} MB"`
(`kb / 1024 = bytes_size / 1048576`). -/
def sizeStringOfBytes (bytes_size : ℕ) : String :=
  if bytes_size < 1024 * 1024 then
    (if 1024 ≤ bytes_size then fmt0 bytes_size 1024 ++ " KB" else "1 KB")
  else fmt2 bytes_size (1024 * 1024) ++ " MB"

/-- `get_file_size_string(content)`: the size string computed from the
UTF-8 byte length of the content. -/
def get_file_size_string (content : String) : String :=
  sizeStringOfBytes content.utf8ByteSize

/-! ## Filename sanitization

The handler builds
`"".join(c if c.isalnum() or c in "_-" else "_" for c in filename)`.
Python's `str.isalnum` is Unicode-aware. `latin1IsAlnum` reproduces its
classification exactly for every code point below `0x100` (ASCII digits
and letters plus the Latin-1 ordinal indicators, superscripts, micro
sign, vulgar fractions and accented letters); code points at `0x100` and
above (none of which are exercised by the theorems below) are
conservatively classified as non-alphanumeric. -/

/-- Python `str.isalnum` on the Latin-1 range. -/
def latin1IsAlnum (n : ℕ) : Bool :=
  decide ((48 ≤ n ∧ n ≤ 57) ∨ (65 ≤ n ∧ n ≤ 90) ∨ (97 ≤ n ∧ n ≤ 122) ∨
    n = 0xAA ∨ n = 0xB2 ∨ n = 0xB3 ∨ n = 0xB5 ∨ n = 0xB9 ∨ n = 0xBA ∨
    n = 0xBC ∨ n = 0xBD ∨ n = 0xBE ∨
    (0xC0 ≤ n ∧ n ≤ 0xD6) ∨ (0xD8 ≤ n ∧ n ≤ 0xF6) ∨ (0xF8 ≤ n ∧ n ≤ 0xFF))

/-- Python `c.isalnum()` (exact below `0x100`, see above). -/
def pyIsAlnum (c : Char) : Bool :=
  if c.toNat < 0x100 then latin1IsAlnum c.toNat else false

/-- The handler's sanitization expression: keep a character when
`c.isalnum() or c in "_-"`, else replace it with `_`. -/
def sanitize (filename : String) : String :=
  String.mk (filename.data.map (fun c =>
    if pyIsAlnum c || c == '_' || c == '-' then c else '_'))

/-- `full_filename = f"{sanitized_filename}_{file_uuid}.csv"`. -/
def full_filename_of (filename uuid : String) : String :=
  sanitize filename ++ "_" ++ uuid ++ ".csv"

/-! ## The `csv_export` handler (`handle_call_tool`)

The `data` argument can be absent or JSON `null` (both reach the handler
as Python `None`), a list of records, or any other value; the code's
guard is `if not data or not isinstance(data, list)`, so what matters
about a non-list value is only its truthiness. The per-call
`uuid.uuid4()` and the outcome of the filesystem interaction are passed
as explicit parameters; the filesystem operations the handler performs
are returned alongside the result so that claims about when storage is
touched can be stated. -/

/-- The `data` member of the argument object. -/
inductive PyData
  | pyNone
  | pyList (rows : List Row)
  | pyOther (truthy : Bool)
deriving DecidableEq

/-- Python truthiness of the `data` argument (`not data` is its
negation): `None` is falsy, a list is truthy iff non-empty. -/
def PyData.isTruthy : PyData → Bool
  | .pyNone => false
  | .pyList rows => !rows.isEmpty
  | .pyOther t => t

/-- `isinstance(data, list)`. -/
def PyData.isList : PyData → Bool
  | .pyList _ => true
  | _ => false

/-- The record list (only meaningful under an `isList` guard). -/
def PyData.rows : PyData → List Row
  | .pyList rows => rows
  | _ => []

/-- The parsed argument object of a `csv_export` call (the
`description` argument is read but never used, so it is omitted).
`none` fields are absent arguments, picked up by `arguments.get`
defaults: `filename` defaults to `"output"`, `delimiter` to `","`,
`includeHeaders` to `True`. -/
structure ExportArgs where
  data : PyData
  filename : Option String
  delimiter : Option String
  includeHeaders : Option Bool
deriving DecidableEq

/-- A value of the JSON result object. -/
inductive JValue
  | str (s : String)
  | bool (b : Bool)
deriving DecidableEq, Repr

/-- A filesystem operation performed by the handler. -/
inductive FsOp
  | ensureDir
  | write (filename : String) (content : String)
deriving DecidableEq

/-- Everything `handle_call_tool` does before touching the filesystem:
validate `data`, convert to CSV, build the unique filename and the size
string. Returns the full filename, size string and CSV content, or the
message of the exception raised (`str(error)`). -/
def exportPrepare (args : ExportArgs) (uuid : String) :
    Except String (String × String × String) :=
  let filename := args.filename.getD "output"
  let delimiter := args.delimiter.getD ","
  let include_headers := args.includeHeaders.getD true
  if !args.data.isTruthy || !args.data.isList then
    .error "Data must be provided as an array of objects"
  else if args.data.rows.length = 0 then
    .error "Data array cannot be empty"
  else
    match convert_to_csv args.data.rows delimiter include_headers with
    | .error e => .error e
    | .ok csv_content =>
      .ok (full_filename_of filename uuid, get_file_size_string csv_content, csv_content)

/-- The `csv_export` branch of `handle_call_tool`: every exception inside
the `try` block is caught and normalized into
`{"success": false, "error": str(error)}`; on success the result object
is `{"path", "filetype", "filename", "filesize"}`. The second component
lists the filesystem operations performed (`write_csv_to_file` first
ensures the export directory, then writes the file; on a storage
failure the directory was at most ensured). -/
def handle_csv_export (args : ExportArgs) (uuid : String)
    (storage : Except String Unit) : List (String × JValue) × List FsOp :=
  match exportPrepare args uuid with
  | .error e => ([("success", JValue.bool false), ("error", JValue.str e)], [])
  | .ok (full, size, content) =>
    match storage with
    | .error e => ([("success", JValue.bool false), ("error", JValue.str e)], [.ensureDir])
    | .ok _ =>
      ([("path", JValue.str full), ("filetype", JValue.str "text/csv"),
        ("filename", JValue.str full), ("filesize", JValue.str size)],
       [.ensureDir, .write full content])

/-! ## Spec-side definitions

These follow the spec's words (not the source) and exist to be compared
with the source-derived definitions above. -/

/-- Spec side (claim C3): the characters the spec says survive
sanitization, exactly `[A-Za-z0-9_-]` (ASCII digits 48-57, upper-case
letters 65-90, lower-case letters 97-122, underscore, hyphen). -/
def specKeepChar (c : Char) : Bool :=
  decide ((48 ≤ c.toNat ∧ c.toNat ≤ 57) ∨ (65 ≤ c.toNat ∧ c.toNat ≤ 90) ∨
    (97 ≤ c.toNat ∧ c.toNat ≤ 122)) || c == '_' || c == '-'

/-- Spec side (claims C8, C9): a value "containing the delimiter, a
newline, or a quote character" must be quoted. -/
def specNeedsQuote (d : Char) (s : String) : Bool :=
  s.data.any (fun c => c == d || c == '"' || c == '\r' || c == '\n')

/-- Spec side (claim C8): standard minimal quoting of one field —
quoted, with internal quote characters doubled, exactly when
`specNeedsQuote` demands it. -/
def specMinQuote (d : Char) (s : String) : List Char :=
  if specNeedsQuote d s then '"' :: (escQ s.data ++ ['"']) else s.data

/-- Spec side (claim C2): the positional, first-record-driven encoding
the spec describes — columns are the first record's keys in order, every
record is written against those columns, a missing key yields an empty
field. -/
def specPositionalEncode (data : List Row) (d : Char) (include_headers : Bool) : String :=
  match data with
  | [] => ""
  | first :: _ =>
    let headers := rowKeys first
    String.mk ((if include_headers then encRowS d headers else []) ++
      catL (data.map (fun row =>
        encRowS d (headers.map (fun k => (dictGet row k).toField)))))

/-- Spec side (claim C5): round a rational to the nearest integer, ties
to even — the `ℚ`-level statement of the rounding performed by Python's
fixed-point float formatting. -/
def roundQ (q : ℚ) : ℤ :=
  if q - ⌊q⌋ < 1 / 2 then ⌊q⌋
  else if 1 / 2 < q - ⌊q⌋ then ⌊q⌋ + 1
  else if ⌊q⌋ % 2 = 0 then ⌊q⌋ else ⌊q⌋ + 1

/-- Spec side (claim C5): "`kb` rounded to 0 decimal places". -/
def specFmt0 (q : ℚ) : String := toString (roundQ q)

/-- Spec side (claim C5): "rounded to 2 decimal places" (for the
nonnegative values that arise here). -/
def specFmt2 (q : ℚ) : String :=
  toString (roundQ (q * 100) / 100) ++ "." ++ pad2 (roundQ (q * 100) % 100).toNat

/-! ## A standard delimited-text parser (spec side, claim C9)

Modelled from the spec: "standard delimited-text parsing (using the same
delimiter and quoting rule)". A one-pass state machine over the
characters: fields separated by the delimiter, rows terminated by CRLF
(or a bare LF), quoted fields may contain anything with quote characters
doubled, a blank line is an empty row. -/

/-- Parser mode: at the start of a field, inside an unquoted field,
inside a quoted field, just after a quote inside a quoted field, or just
after a CR that ended a row. -/
inductive PMode
  | fieldStart
  | unquoted
  | quoted
  | quoteEnd
  | cr
deriving DecidableEq, Repr

/-- Parser state: completed rows, completed fields of the current row,
characters of the current field, and the mode. -/
structure PState where
  rows : List (List String)
  fields : List String
  cur : List Char
  mode : PMode
deriving DecidableEq, Repr

/-- One parser step at the start of a field (also used for the character
after a CR once the pending LF is dealt with). -/
def stepStart (d : Char) (st : PState) (c : Char) : PState :=
  if c = '"' then { st with cur := [], mode := .quoted }
  else if c = d then { st with fields := st.fields ++ [""], cur := [], mode := .fieldStart }
  else if c = '\r' then
    { st with rows := st.rows ++ [if st.fields.isEmpty then [] else st.fields ++ [""]],
              fields := [], cur := [], mode := .cr }
  else if c = '\n' then
    { st with rows := st.rows ++ [if st.fields.isEmpty then [] else st.fields ++ [""]],
              fields := [], cur := [], mode := .fieldStart }
  else { st with cur := [c], mode := .unquoted }

/-- One parser step. -/
def pstep (d : Char) (st : PState) (c : Char) : PState :=
  match st.mode with
  | .fieldStart => stepStart d st c
  | .unquoted =>
    if c = d then { st with fields := st.fields ++ [String.mk st.cur], cur := [], mode := .fieldStart }
    else if c = '\r' then
      { st with rows := st.rows ++ [st.fields ++ [String.mk st.cur]],
                fields := [], cur := [], mode := .cr }
    else if c = '\n' then
      { st with rows := st.rows ++ [st.fields ++ [String.mk st.cur]],
                fields := [], cur := [], mode := .fieldStart }
    else { st with cur := st.cur ++ [c] }
  | .quoted =>
    if c = '"' then { st with mode := .quoteEnd }
    else { st with cur := st.cur ++ [c] }
  | .quoteEnd =>
    if c = '"' then { st with cur := st.cur ++ ['"'], mode := .quoted }
    else if c = d then { st with fields := st.fields ++ [String.mk st.cur], cur := [], mode := .fieldStart }
    else if c = '\r' then
      { st with rows := st.rows ++ [st.fields ++ [String.mk st.cur]],
                fields := [], cur := [], mode := .cr }
    else if c = '\n' then
      { st with rows := st.rows ++ [st.fields ++ [String.mk st.cur]],
                fields := [], cur := [], mode := .fieldStart }
    else { st with cur := st.cur ++ [c], mode := .unquoted }
  | .cr =>
    if c = '\n' then { st with mode := .fieldStart }
    else stepStart d { st with mode := .fieldStart } c

/-- Flush the parser state at end of input. -/
def pfinish (st : PState) : List (List String) :=
  match st.mode with
  | .fieldStart => if st.fields.isEmpty then st.rows else st.rows ++ [st.fields ++ [""]]
  | .cr => st.rows
  | _ => st.rows ++ [st.fields ++ [String.mk st.cur]]

/-- Parse a whole delimited-text document into rows of fields. -/
def parseCSV (d : Char) (s : String) : List (List String) :=
  pfinish (s.data.foldl (pstep d) ⟨[], [], [], .fieldStart⟩)

/-! ## Helper lemmas -/

theorem mapExc_ok_of_forall {α β : Type} {f : α → Except String β} {g : α → β} :
    ∀ l : List α, (∀ a ∈ l, f a = .ok (g a)) → mapExc f l = .ok (l.map g) := by
  intro l h
  induction l with
  | nil => rfl
  | cons a as ihl =>
    have ha : f a = .ok (g a) := h a (by simp)
    have has : mapExc f as = .ok (as.map g) := ihl (fun b hb => h b (by simp [hb]))
    simp [mapExc, ha, has]

theorem mapExc_isOk {α β : Type} (f : α → Except String β) :
    ∀ l : List α, (mapExc f l).isOk = l.all (fun a => (f a).isOk) := by
  intro l
  induction l with
  | nil => rfl
  | cons a as ihl =>
    rw [List.all_cons, ← ihl]
    cases ha : f a with
    | error e => simp [mapExc, ha, Except.isOk, Except.toBool]
    | ok b =>
      cases has : mapExc f as with
      | error e => simp [mapExc, ha, has, Except.isOk, Except.toBool]
      | ok bs => simp [mapExc, ha, has, Except.isOk, Except.toBool]

theorem mapExc_error_mem {α β : Type} {f : α → Except String β} {e : String} :
    ∀ l : List α, mapExc f l = .error e → ∃ a ∈ l, f a = .error e := by
  intro l h
  induction l with
  | nil => simp [mapExc] at h
  | cons a as ihl =>
    cases ha : f a with
    | error e' =>
      rw [mapExc, ha] at h
      cases h
      exact ⟨a, by simp, ha⟩
    | ok b =>
      cases has : mapExc f as with
      | error e' =>
        rw [mapExc, ha, has] at h
        cases h
        obtain ⟨a', ha', hfa'⟩ := ihl has
        exact ⟨a', by simp [ha'], hfa'⟩
      | ok bs => rw [mapExc, ha, has] at h; cases h

theorem dictToFields_error_msg {headers : List String} {row : Row} {e : String}
    (h : dictToFields headers row = .error e) :
    e = "dict contains fields not in fieldnames" := by
  unfold dictToFields at h
  split at h
  · cases h; rfl
  · cases h

theorem dictToFields_ok {headers : List String} {row : Row}
    (h : ∀ kv ∈ row, headers.contains kv.1 = true) :
    dictToFields headers row = .ok (headers.map (fun k => (dictGet row k).toField)) := by
  have hany : (row.any (fun kv => !(headers.contains kv.1))) = false := by
    rw [List.any_eq_false]
    intro kv hkv
    rw [Bool.not_eq_true, Bool.not_eq_false']
    exact h kv hkv
  unfold dictToFields
  rw [hany]
  simp

theorem convert_to_csv_error_msg {data : List Row} {delimiter : String}
    {include_headers : Bool} {e : String}
    (h : convert_to_csv data delimiter include_headers = .error e) :
    e = "delimiter must be a 1-character string" ∨
      e = "dict contains fields not in fieldnames" := by
  unfold convert_to_csv at h
  cases data with
  | nil => cases h
  | cons first rest =>
    dsimp only at h
    cases hdel : delimiter.data with
    | nil => rw [hdel] at h; cases h; exact Or.inl rfl
    | cons c cs =>
      rw [hdel] at h
      cases cs with
      | nil =>
        dsimp only at h
        cases hmap : mapExc (dictToFields (rowKeys first)) (first :: rest) with
        | error e' =>
          rw [hmap] at h
          cases h
          obtain ⟨row, _, hrow⟩ := mapExc_error_mem _ hmap
          exact Or.inr (dictToFields_error_msg hrow)
        | ok rows =>
          rw [hmap] at h
          cases h
      | cons c2 cs2 => cases h; exact Or.inl rfl

theorem exportPrepare_ok_filename {args : ExportArgs} {uuid : String}
    {v : String × String × String} (h : exportPrepare args uuid = .ok v) :
    v.1 = full_filename_of (args.filename.getD "output") uuid := by
  simp only [exportPrepare] at h
  split at h
  · cases h
  · split at h
    · cases h
    · revert h
      cases hconv : convert_to_csv args.data.rows (args.delimiter.getD ",")
          (args.includeHeaders.getD true) with
      | error e => intro h; cases h
      | ok csv_content => intro h; cases h; rfl

theorem exportPrepare_never_empty_message {args : ExportArgs} {uuid : String}
    {e : String} (h : exportPrepare args uuid = .error e) :
    e ≠ "Data array cannot be empty" := by
  simp only [exportPrepare] at h
  split at h
  · cases h; decide
  · rename_i hguard
    split at h
    · rename_i hlen
      -- the length-zero branch is unreachable: the truthiness guard above
      -- already rejected the empty list
      exfalso
      rw [Bool.not_eq_true, Bool.or_eq_false_iff] at hguard
      obtain ⟨ht, hl⟩ := hguard
      rw [Bool.not_eq_false'] at ht hl
      cases hdata : args.data with
      | pyNone => rw [hdata] at hl; cases hl
      | pyOther t => rw [hdata] at hl; simp [PyData.isList] at hl
      | pyList rows =>
        rw [hdata] at ht hlen
        simp only [PyData.isTruthy, PyData.rows] at ht hlen
        rw [List.length_eq_zero] at hlen
        subst hlen
        simp at ht
    · revert h
      cases hconv : convert_to_csv args.data.rows (args.delimiter.getD ",")
          (args.includeHeaders.getD true) with
      | error e' =>
        intro h
        cases h
        rcases convert_to_csv_error_msg hconv with h1 | h1 <;> (subst h1; decide)
      | ok csv_content => intro h; cases h

/-! ## Round-trip machinery (claim C9)

The parser is a fold of `pstep`; each lemma processes one syntactic
piece of the encoder's output from a given machine state. -/

theorem mk_data (s : String) : String.mk s.data = s := rfl

theorem not_special_of_needsQuote_false {d : Char} {cs : List Char}
    (h : needsQuote d cs = false) :
    ∀ c ∈ cs, c ≠ d ∧ c ≠ '"' ∧ c ≠ '\r' ∧ c ≠ '\n' := by
  intro c hc
  have hb := List.any_eq_false.mp h c hc
  simp only [Bool.not_eq_true, Bool.or_eq_false_iff, beq_eq_false_iff_ne, ne_eq] at hb
  exact ⟨hb.1.1.1, hb.1.1.2, hb.1.2, hb.2⟩

/-- Processing the escaped body of a quoted field appends it verbatim. -/
theorem foldl_escQ (d : Char) :
    ∀ (cs : List Char) (r : List (List String)) (fl : List String) (cur : List Char),
      List.foldl (pstep d) ⟨r, fl, cur, .quoted⟩ (escQ cs) = ⟨r, fl, cur ++ cs, .quoted⟩ := by
  intro cs
  induction cs with
  | nil => intro r fl cur; simp [escQ]
  | cons c cs ih =>
    intro r fl cur
    by_cases hc : c = '"'
    · subst hc
      rw [show escQ ('"' :: cs) = '"' :: '"' :: escQ cs by simp [escQ]]
      rw [List.foldl_cons, List.foldl_cons]
      rw [show pstep d ⟨r, fl, cur, .quoted⟩ '"' = ⟨r, fl, cur, .quoteEnd⟩ by simp [pstep]]
      rw [show pstep d ⟨r, fl, cur, .quoteEnd⟩ '"' = ⟨r, fl, cur ++ ['"'], .quoted⟩ by
        simp [pstep]]
      rw [ih]
      simp
    · rw [show escQ (c :: cs) = c :: escQ cs by simp [escQ, hc]]
      rw [List.foldl_cons]
      rw [show pstep d ⟨r, fl, cur, .quoted⟩ c = ⟨r, fl, cur ++ [c], .quoted⟩ by
        simp [pstep, hc]]
      rw [ih]
      simp

/-- Processing unquoted field characters appends them verbatim. -/
theorem foldl_unquoted (d : Char) :
    ∀ (cs : List Char), (∀ c ∈ cs, c ≠ d ∧ c ≠ '\r' ∧ c ≠ '\n') →
      ∀ (r : List (List String)) (fl : List String) (cur : List Char),
        List.foldl (pstep d) ⟨r, fl, cur, .unquoted⟩ cs = ⟨r, fl, cur ++ cs, .unquoted⟩ := by
  intro cs
  induction cs with
  | nil => intro _ r fl cur; simp
  | cons c cs ih =>
    intro h r fl cur
    obtain ⟨h1, h2, h3⟩ := h c (by simp)
    rw [List.foldl_cons]
    rw [show pstep d ⟨r, fl, cur, .unquoted⟩ c = ⟨r, fl, cur ++ [c], .unquoted⟩ by
      simp [pstep, h1, h2, h3]]
    rw [ih (fun c' hc' => h c' (by simp [hc']))]
    simp

/-- Processing one encoded field from the start of a field: a quoted
field ends in `quoteEnd`, a non-empty unquoted field ends in
`unquoted`, an empty unquoted field consumes nothing. -/
theorem foldl_encFieldL_quoted (d : Char) (cs : List Char)
    (hq : needsQuote d cs = true) (r : List (List String)) (fl : List String) :
    List.foldl (pstep d) ⟨r, fl, [], .fieldStart⟩ (encFieldL d cs) =
      ⟨r, fl, cs, .quoteEnd⟩ := by
  unfold encFieldL
  rw [if_pos hq, List.foldl_cons]
  rw [show pstep d ⟨r, fl, [], .fieldStart⟩ '"' = ⟨r, fl, [], .quoted⟩ by
    simp [pstep, stepStart]]
  rw [List.foldl_append, foldl_escQ, List.foldl_cons]
  rw [show pstep d ⟨r, fl, [] ++ cs, .quoted⟩ '"' = ⟨r, fl, [] ++ cs, .quoteEnd⟩ by
    simp [pstep]]
  simp

theorem foldl_encFieldL_unquoted (d : Char) (cs : List Char)
    (hq : needsQuote d cs = false) (hne : cs ≠ [])
    (r : List (List String)) (fl : List String) :
    List.foldl (pstep d) ⟨r, fl, [], .fieldStart⟩ (encFieldL d cs) =
      ⟨r, fl, cs, .unquoted⟩ := by
  unfold encFieldL
  rw [if_neg (by rw [hq]; exact Bool.false_ne_true)]
  cases cs with
  | nil => exact absurd rfl hne
  | cons c cs' =>
    obtain ⟨h1, h2, h3, h4⟩ := not_special_of_needsQuote_false hq c (by simp)
    rw [List.foldl_cons]
    rw [show pstep d ⟨r, fl, [], .fieldStart⟩ c = ⟨r, fl, [c], .unquoted⟩ by
      simp [pstep, stepStart, h1, h2, h3, h4]]
    rw [foldl_unquoted d cs'
      (fun c' hc' => by
        obtain ⟨g1, g2, g3, g4⟩ := not_special_of_needsQuote_false hq c' (by simp [hc'])
        exact ⟨g1, g3, g4⟩)]
    rfl

/-- Processing one encoded field followed by the delimiter pushes the
field and returns to the start of a field. -/
theorem foldl_field_delim (d : Char) (hd1 : d ≠ '"') (cs : List Char)
    (r : List (List String)) (fl : List String) :
    List.foldl (pstep d) ⟨r, fl, [], .fieldStart⟩ (encFieldL d cs ++ [d]) =
      ⟨r, fl ++ [String.mk cs], [], .fieldStart⟩ := by
  rw [List.foldl_append]
  cases hq : needsQuote d cs with
  | true =>
    rw [foldl_encFieldL_quoted d cs hq, List.foldl_cons]
    rw [show pstep d ⟨r, fl, cs, .quoteEnd⟩ d = ⟨r, fl ++ [String.mk cs], [], .fieldStart⟩ by
      simp [pstep, hd1]]
    rfl
  | false =>
    by_cases hcs : cs = []
    · subst hcs
      rw [show encFieldL d [] = [] from rfl, List.foldl_nil, List.foldl_cons]
      rw [show pstep d ⟨r, fl, [], .fieldStart⟩ d = ⟨r, fl ++ [""], [], .fieldStart⟩ by
        simp [pstep, stepStart, hd1]]
      rfl
    · rw [foldl_encFieldL_unquoted d cs hq hcs, List.foldl_cons]
      rw [show pstep d ⟨r, fl, cs, .unquoted⟩ d = ⟨r, fl ++ [String.mk cs], [], .fieldStart⟩ by
        simp [pstep]]
      rfl

/-- Processing one encoded field followed by CRLF pushes the field,
closes the row and returns to the start of a row (the field may only be
empty when the row already holds fields — the encoder writes a sole
empty field quoted, so that case never reaches this shape). -/
theorem foldl_field_crlf (d : Char) (_hd1 : d ≠ '"') (hd2 : d ≠ '\r') (cs : List Char)
    (r : List (List String)) (fl : List String) (hne : ¬(fl = [] ∧ cs = [])) :
    List.foldl (pstep d) ⟨r, fl, [], .fieldStart⟩ (encFieldL d cs ++ ['\r', '\n']) =
      ⟨r ++ [fl ++ [String.mk cs]], [], [], .fieldStart⟩ := by
  rw [List.foldl_append]
  cases hq : needsQuote d cs with
  | true =>
    rw [foldl_encFieldL_quoted d cs hq, List.foldl_cons]
    rw [show pstep d ⟨r, fl, cs, .quoteEnd⟩ '\r' =
        ⟨r ++ [fl ++ [String.mk cs]], [], [], .cr⟩ by
      simp [pstep, Ne.symm hd2]]
    rw [List.foldl_cons]
    rw [show pstep d ⟨r ++ [fl ++ [String.mk cs]], [], [], .cr⟩ '\n' =
        ⟨r ++ [fl ++ [String.mk cs]], [], [], .fieldStart⟩ by simp [pstep]]
    rfl
  | false =>
    by_cases hcs : cs = []
    · subst hcs
      have hfl : fl.isEmpty = false := by
        cases fl with
        | nil => exact absurd ⟨rfl, rfl⟩ hne
        | cons a l => rfl
      rw [show encFieldL d [] = [] from rfl, List.foldl_nil, List.foldl_cons]
      rw [show pstep d ⟨r, fl, [], .fieldStart⟩ '\r' = ⟨r ++ [fl ++ [""]], [], [], .cr⟩ by
        simp [pstep, stepStart, Ne.symm hd2, hfl]]
      rw [List.foldl_cons]
      rw [show pstep d ⟨r ++ [fl ++ [""]], [], [], .cr⟩ '\n' =
          ⟨r ++ [fl ++ [""]], [], [], .fieldStart⟩ by simp [pstep]]
      rfl
    · rw [foldl_encFieldL_unquoted d cs hq hcs, List.foldl_cons]
      rw [show pstep d ⟨r, fl, cs, .unquoted⟩ '\r' =
          ⟨r ++ [fl ++ [String.mk cs]], [], [], .cr⟩ by
        simp [pstep, Ne.symm hd2]]
      rw [List.foldl_cons]
      rw [show pstep d ⟨r ++ [fl ++ [String.mk cs]], [], [], .cr⟩ '\n' =
          ⟨r ++ [fl ++ [String.mk cs]], [], [], .fieldStart⟩ by simp [pstep]]
      rfl

/-- Processing a delimiter-joined sequence of encoded fields plus CRLF
appends all of them to the current row's fields and closes the row. -/
theorem foldl_fields (d : Char) (hd1 : d ≠ '"') (hd2 : d ≠ '\r') :
    ∀ (gs : List String) (r : List (List String)) (fl : List String), gs ≠ [] →
      ¬(fl = [] ∧ gs = [""]) →
      List.foldl (pstep d) ⟨r, fl, [], .fieldStart⟩
        (joinSep d (gs.map (fun s => encFieldL d s.data)) ++ ['\r', '\n']) =
      ⟨r ++ [fl ++ gs], [], [], .fieldStart⟩ := by
  intro gs
  induction gs with
  | nil => intro r fl h _; exact absurd rfl h
  | cons g gs' ih =>
    intro r fl _ hne
    cases gs' with
    | nil =>
      have hne' : ¬(fl = [] ∧ g.data = []) := by
        intro hand
        apply hne
        refine ⟨hand.1, ?_⟩
        have hg : g = "" := by rw [← mk_data g, hand.2]
        rw [hg]
      rw [show joinSep d ([g].map (fun s => encFieldL d s.data)) = encFieldL d g.data
        from rfl]
      rw [foldl_field_crlf d hd1 hd2 g.data r fl hne', mk_data]
    | cons g' gs'' =>
      rw [show joinSep d ((g :: g' :: gs'').map (fun s => encFieldL d s.data)) =
          encFieldL d g.data ++
            (d :: joinSep d ((g' :: gs'').map (fun s => encFieldL d s.data))) from rfl]
      rw [show (encFieldL d g.data ++
            (d :: joinSep d ((g' :: gs'').map (fun s => encFieldL d s.data)))) ++
            ['\r', '\n'] =
          (encFieldL d g.data ++ [d]) ++
            (joinSep d ((g' :: gs'').map (fun s => encFieldL d s.data)) ++ ['\r', '\n']) by
        simp]
      rw [List.foldl_append, foldl_field_delim d hd1 g.data r fl, mk_data]
      rw [ih r (fl ++ [g]) (by simp) (by simp)]
      simp

/-- Processing one encoded row from the start of a row appends exactly
that row. -/
theorem foldl_encRowS (d : Char) (hd1 : d ≠ '"') (hd2 : d ≠ '\r')
    (fs : List String) (r : List (List String)) :
    List.foldl (pstep d) ⟨r, [], [], .fieldStart⟩ (encRowS d fs) =
      ⟨r ++ [fs], [], [], .fieldStart⟩ := by
  cases fs with
  | nil =>
    rw [show encRowS d [] = ['\r', '\n'] from rfl, List.foldl_cons]
    rw [show pstep d ⟨r, [], [], .fieldStart⟩ '\r' = ⟨r ++ [[]], [], [], .cr⟩ by
      simp [pstep, stepStart, Ne.symm hd2]]
    rw [List.foldl_cons]
    rw [show pstep d ⟨r ++ [[]], [], [], .cr⟩ '\n' = ⟨r ++ [[]], [], [], .fieldStart⟩ by
      simp [pstep]]
    rfl
  | cons f gs =>
    by_cases hsingle : f :: gs = [""]
    · rw [hsingle]
      rw [show encRowS d [""] = ['"', '"', '\r', '\n'] from rfl, List.foldl_cons]
      rw [show pstep d ⟨r, [], [], .fieldStart⟩ '"' = ⟨r, [], [], .quoted⟩ by
        simp [pstep, stepStart]]
      rw [List.foldl_cons]
      rw [show pstep d ⟨r, [], [], .quoted⟩ '"' = ⟨r, [], [], .quoteEnd⟩ by simp [pstep]]
      rw [List.foldl_cons]
      rw [show pstep d ⟨r, [], [], .quoteEnd⟩ '\r' = ⟨r ++ [[""]], [], [], .cr⟩ by
        simp [pstep, Ne.symm hd2]]
      rw [List.foldl_cons]
      rw [show pstep d ⟨r ++ [[""]], [], [], .cr⟩ '\n' =
          ⟨r ++ [[""]], [], [], .fieldStart⟩ by simp [pstep]]
      rfl
    · have hrow : encRowS d (f :: gs) =
          joinSep d ((f :: gs).map (fun s => encFieldL d s.data)) ++ ['\r', '\n'] := by
        cases gs with
        | nil =>
          obtain ⟨l⟩ := f
          cases l with
          | nil => exact absurd rfl hsingle
          | cons c cs => rfl
        | cons g' gs'' =>
          rw [show encRowS d (f :: g' :: gs'') =
              joinSep d (((f :: g' :: gs'').map String.data).map (encFieldL d)) ++
                ['\r', '\n'] from rfl, List.map_map]
          rfl
      rw [hrow, foldl_fields d hd1 hd2 (f :: gs) r [] (by simp) (by simp [hsingle])]
      rfl

/-- Processing a concatenation of encoded rows appends exactly those
rows. -/
theorem foldl_document (d : Char) (hd1 : d ≠ '"') (hd2 : d ≠ '\r') :
    ∀ (rowsData : List (List String)) (r : List (List String)),
      List.foldl (pstep d) ⟨r, [], [], .fieldStart⟩ (catL (rowsData.map (encRowS d))) =
        ⟨r ++ rowsData, [], [], .fieldStart⟩ := by
  intro rowsData
  induction rowsData with
  | nil => intro r; simp [catL]
  | cons rd rest ih =>
    intro r
    rw [show catL ((rd :: rest).map (encRowS d)) =
        encRowS d rd ++ catL (rest.map (encRowS d)) from rfl]
    rw [List.foldl_append, foldl_encRowS d hd1 hd2 rd r, ih]
    simp

/-- Parsing the concatenation of encoded rows returns exactly those
rows. -/
theorem parse_encoded_rows (d : Char) (hd1 : d ≠ '"') (hd2 : d ≠ '\r')
    (rowsData : List (List String)) :
    parseCSV d (String.mk (catL (rowsData.map (encRowS d)))) = rowsData := by
  unfold parseCSV
  rw [show (String.mk (catL (rowsData.map (encRowS d)))).data =
      catL (rowsData.map (encRowS d)) from rfl]
  rw [foldl_document d hd1 hd2 rowsData []]
  rfl

/-! ## Claims about the handler's validation and result object -/

/-- Claim C1. The code evaluated at `data = []`: the handler's guard
`if not data or not isinstance(data, list)` already fires on the empty
list (Python's `not []` is `True`), so the returned error message is
"Data must be provided as an array of objects", and the dedicated
`len(data) == 0` branch carrying "Data array cannot be empty" is dead:
no run of the handler can ever produce that message. -/
theorem c1_empty_data_wrong_message :
    ((handle_csv_export ⟨.pyList [], none, none, none⟩ "u" (.ok ())).1 =
      [("success", JValue.bool false),
       ("error", JValue.str "Data must be provided as an array of objects")]) ∧
    (∀ (args : ExportArgs) (uuid e : String),
      exportPrepare args uuid = .error e → e ≠ "Data array cannot be empty") := by
  constructor
  · rfl
  · intro args uuid e h
    exact exportPrepare_never_empty_message h

theorem c1_empty_data_wrong_message_witness :
    "Data must be provided as an array of objects" ≠ "Data array cannot be empty" :=
  c1_empty_data_wrong_message.2 ⟨.pyNone, none, none, none⟩ "u"
    "Data must be provided as an array of objects" rfl

/-- Claim C7. Whenever the `data` argument is absent, `null` (both reach
the handler as Python `None`) or not a list, the handler returns the
failure result with error exactly "Data must be provided as an array of
objects" and performs no filesystem operation — whatever the other
arguments are, so this check wins over every later one (in particular
over the emptiness check). -/
theorem c7_data_must_be_list (args : ExportArgs) (uuid : String)
    (storage : Except String Unit) (h : args.data.isList = false) :
    handle_csv_export args uuid storage =
      ([("success", JValue.bool false),
        ("error", JValue.str "Data must be provided as an array of objects")], []) := by
  have hprep : exportPrepare args uuid =
      .error "Data must be provided as an array of objects" := by
    simp only [exportPrepare, h, Bool.not_false, Bool.or_true, if_true]
  simp only [handle_csv_export, hprep]

theorem c7_data_must_be_list_witness :
    handle_csv_export ⟨.pyNone, none, none, none⟩ "u" (.ok ()) =
      ([("success", JValue.bool false),
        ("error", JValue.str "Data must be provided as an array of objects")], []) :=
  c7_data_must_be_list ⟨.pyNone, none, none, none⟩ "u" (.ok ()) rfl

/-- Claim C6. The handler always returns a well-formed result object
(the embedding is a total function: every exception raised inside the
`try` block, including storage failures, is caught and normalized):
either the failure shape, exactly `success: false` plus `error`, or the
success shape, exactly `path`, `filetype` ("text/csv"), `filename`,
`filesize` with no `success` member, where `path` and `filename` are
both the generated `full_filename` (a bare name, not a filesystem
path). -/
theorem c6_result_shape (args : ExportArgs) (uuid : String)
    (storage : Except String Unit) :
    (∃ msg, (handle_csv_export args uuid storage).1 =
        [("success", JValue.bool false), ("error", JValue.str msg)]) ∨
    (∃ size, (handle_csv_export args uuid storage).1 =
        [("path", JValue.str (full_filename_of (args.filename.getD "output") uuid)),
         ("filetype", JValue.str "text/csv"),
         ("filename", JValue.str (full_filename_of (args.filename.getD "output") uuid)),
         ("filesize", JValue.str size)]) := by
  unfold handle_csv_export
  cases hprep : exportPrepare args uuid with
  | error e => exact Or.inl ⟨e, rfl⟩
  | ok v =>
    obtain ⟨full, size, content⟩ := v
    have hfull : full = full_filename_of (args.filename.getD "output") uuid :=
      exportPrepare_ok_filename hprep
    cases storage with
    | error e => exact Or.inl ⟨e, rfl⟩
    | ok u => exact Or.inr ⟨size, by rw [← hfull]⟩

/-- Claim C10. Every failure raised before the filesystem interaction —
validation failures and every conversion failure, in particular a
delimiter that is not exactly one character, which the csv writer
rejects — yields the failure result with that error message and an empty
list of filesystem operations: the directory is not ensured and no file
is written. -/
theorem c10_no_storage_before_write :
    (∀ (args : ExportArgs) (uuid : String) (storage : Except String Unit) (e : String),
      exportPrepare args uuid = .error e →
        handle_csv_export args uuid storage =
          ([("success", JValue.bool false), ("error", JValue.str e)], [])) ∧
    (∀ (rows : List Row) (fn : Option String) (d : String) (hdr : Option Bool)
      (uuid : String), rows ≠ [] → d.length ≠ 1 →
        (exportPrepare ⟨.pyList rows, fn, some d, hdr⟩ uuid).isOk = false) := by
  constructor
  · intro args uuid storage e h
    simp only [handle_csv_export, h]
  · intro rows fn d hdr uuid hrows hd
    obtain ⟨first, rest, rfl⟩ : ∃ a l, rows = a :: l := by
      cases rows with
      | nil => exact absurd rfl hrows
      | cons a l => exact ⟨a, l, rfl⟩
    have hconv : convert_to_csv (first :: rest) d (hdr.getD true) =
        .error "delimiter must be a 1-character string" := by
      unfold convert_to_csv
      dsimp only
      cases hdel : d.data with
      | nil => rfl
      | cons c cs =>
        cases cs with
        | nil =>
          exfalso
          apply hd
          show d.data.length = 1
          rw [hdel]
          rfl
        | cons c2 cs2 => rfl
    simp [exportPrepare, PyData.isTruthy, PyData.isList, PyData.rows, hconv,
      Except.isOk, Except.toBool]

theorem c10_no_storage_before_write_witness :
    (handle_csv_export ⟨.pyNone, none, none, none⟩ "u" (.ok ()) =
      ([("success", JValue.bool false),
        ("error", JValue.str "Data must be provided as an array of objects")], [])) ∧
    (exportPrepare ⟨.pyList [[("a", Value.str "1")]], none, some ";;", none⟩ "u").isOk
      = false :=
  ⟨c10_no_storage_before_write.1 ⟨.pyNone, none, none, none⟩ "u" (.ok ())
      "Data must be provided as an array of objects" rfl,
   c10_no_storage_before_write.2 [[("a", Value.str "1")]] none ";;" none "u"
      (by decide) (by decide)⟩

theorem sanitize_keep_ascii (c : Char) (h : c.toNat < 128) :
    (pyIsAlnum c || c == '_' || c == '-') = specKeepChar c := by
  have h256 : c.toNat < 0x100 := by omega
  simp only [pyIsAlnum, if_pos h256, latin1IsAlnum, specKeepChar]
  have hd : decide ((48 ≤ c.toNat ∧ c.toNat ≤ 57) ∨ (65 ≤ c.toNat ∧ c.toNat ≤ 90) ∨
      (97 ≤ c.toNat ∧ c.toNat ≤ 122) ∨
      c.toNat = 0xAA ∨ c.toNat = 0xB2 ∨ c.toNat = 0xB3 ∨ c.toNat = 0xB5 ∨
      c.toNat = 0xB9 ∨ c.toNat = 0xBA ∨ c.toNat = 0xBC ∨ c.toNat = 0xBD ∨
      c.toNat = 0xBE ∨ (0xC0 ≤ c.toNat ∧ c.toNat ≤ 0xD6) ∨
      (0xD8 ≤ c.toNat ∧ c.toNat ≤ 0xF6) ∨ (0xF8 ≤ c.toNat ∧ c.toNat ≤ 0xFF)) =
      decide ((48 ≤ c.toNat ∧ c.toNat ≤ 57) ∨ (65 ≤ c.toNat ∧ c.toNat ≤ 90) ∨
      (97 ≤ c.toNat ∧ c.toNat ≤ 122)) := by
    rw [decide_eq_decide]
    omega
  rw [hd]

/-- Claim C3 (amended). Sanitization keeps a character exactly when
Python's `str.isalnum` accepts it or it is `_` or `-`; restricted to
ASCII filenames this is exactly the set `[A-Za-z0-9_-]` the spec names,
and the spec's example holds: `"sales report!.csv"` sanitizes to
`"sales_report__csv"`. (Outside ASCII the spec's characterization fails,
see the counterexample.) -/
theorem c3_sanitize_ascii :
    (∀ filename : String, (∀ c ∈ filename.data, c.toNat < 128) →
      sanitize filename =
        String.mk (filename.data.map (fun c => if specKeepChar c then c else '_'))) ∧
    sanitize "sales report!.csv" = "sales_report__csv" := by
  constructor
  · intro filename h
    unfold sanitize
    congr 1
    apply List.map_congr_left
    intro c hc
    rw [sanitize_keep_ascii c (h c hc)]
  · decide

theorem c3_sanitize_ascii_witness :
    sanitize "data file(2)" =
      String.mk ("data file(2)".data.map (fun c => if specKeepChar c then c else '_')) :=
  c3_sanitize_ascii.1 "data file(2)" (by decide)

/-- Claim C3, counterexample: `é` (U+00E9) is outside `[A-Za-z0-9_-]`,
yet sanitization keeps it, because Python's `str.isalnum` is
Unicode-aware and classifies it alphanumeric — the claim's
"replace every character outside `[A-Za-z0-9_-]`" predicts `"_"`. -/
theorem c3_sanitize_unicode_counterexample :
    sanitize "é" = "é" ∧ sanitize "é" ≠ "_" := by decide

theorem contains_of_mem {l : List String} {a : String} (h : a ∈ l) :
    l.contains a = true :=
  List.elem_iff.mpr h

theorem contains_eq_false_of_not_mem {l : List String} {a : String} (h : ¬ a ∈ l) :
    l.contains a = false := by
  rw [← Bool.not_eq_true]
  intro hc
  exact h (List.elem_iff.mp hc)

theorem mapExc_dictToFields_ok {first : Row} {rest : List Row}
    (h : ∀ row ∈ (first :: rest), ∀ kv ∈ row, kv.1 ∈ rowKeys first) :
    mapExc (dictToFields (rowKeys first)) (first :: rest) =
      .ok ((first :: rest).map (fun row =>
        (rowKeys first).map (fun k => (dictGet row k).toField))) := by
  apply mapExc_ok_of_forall
  intro row hrow
  apply dictToFields_ok
  intro kv hkv
  exact contains_of_mem (h row hrow kv hkv)

/-- Shared success path: when every record's keys lie inside the first
record's keys, the conversion succeeds and produces exactly the
positional encoding described by the spec. -/
theorem convert_to_csv_ok_of_keys (first : Row) (rest : List Row) (d : Char) (ih : Bool)
    (h : ∀ row ∈ (first :: rest), ∀ kv ∈ row, kv.1 ∈ rowKeys first) :
    convert_to_csv (first :: rest) (String.singleton d) ih =
      .ok (specPositionalEncode (first :: rest) d ih) := by
  unfold convert_to_csv
  dsimp only
  rw [show (String.singleton d).data = [d] from rfl]
  dsimp only
  rw [mapExc_dictToFields_ok h]
  unfold specPositionalEncode
  dsimp only
  rw [List.map_map]
  rfl

/-- Claim C2 (amended). The encoder writes every record positionally
against the first record's key order, and a record missing one of those
keys emits an empty field (`DictWriter`'s `restval` default); but a
record carrying a key not present in the first record does NOT have it
silently dropped — `DictWriter`'s default `extrasaction='raise'` raises
a `ValueError`, so the conversion fails. -/
theorem c2_first_record_schema (first : Row) (rest : List Row) (d : Char) (ih : Bool) :
    ((∀ row ∈ (first :: rest), ∀ kv ∈ row, kv.1 ∈ rowKeys first) →
      convert_to_csv (first :: rest) (String.singleton d) ih =
        .ok (specPositionalEncode (first :: rest) d ih)) ∧
    ((∃ row ∈ (first :: rest), ∃ kv ∈ row, ¬ kv.1 ∈ rowKeys first) →
      (convert_to_csv (first :: rest) (String.singleton d) ih).isOk = false) := by
  constructor
  · exact convert_to_csv_ok_of_keys first rest d ih
  · intro hbad
    obtain ⟨row, hrow, kv, hkv, hnotin⟩ := hbad
    have hfail : (dictToFields (rowKeys first) row).isOk = false := by
      unfold dictToFields
      rw [if_pos]
      · rfl
      · rw [List.any_eq_true]
        exact ⟨kv, hkv, by rw [contains_eq_false_of_not_mem hnotin]; rfl⟩
    unfold convert_to_csv
    dsimp only
    rw [show (String.singleton d).data = [d] from rfl]
    dsimp only
    cases hmap : mapExc (dictToFields (rowKeys first)) (first :: rest) with
    | error e => rfl
    | ok rows =>
      exfalso
      have hok := mapExc_isOk (dictToFields (rowKeys first)) (first :: rest)
      rw [hmap] at hok
      have hok2 : ((first :: rest).all (fun a => (dictToFields (rowKeys first) a).isOk))
          = true := by
        rw [← hok]; rfl
      have hrowOk := List.all_eq_true.mp hok2 row hrow
      simp only [] at hrowOk
      rw [hfail] at hrowOk
      exact Bool.noConfusion hrowOk

theorem c2_first_record_schema_witness :
    (convert_to_csv
        [[("name", Value.str "Alice"), ("age", Value.int 30)], [("name", Value.str "Bob")]]
        (String.singleton ',') true =
      .ok (specPositionalEncode
        [[("name", Value.str "Alice"), ("age", Value.int 30)], [("name", Value.str "Bob")]]
        ',' true)) ∧
    (convert_to_csv
        [[("a", Value.str "1")], [("a", Value.str "2"), ("b", Value.str "3")]]
        (String.singleton ',') true).isOk = false :=
  ⟨(c2_first_record_schema [("name", Value.str "Alice"), ("age", Value.int 30)]
      [[("name", Value.str "Bob")]] ',' true).1 (by decide),
   (c2_first_record_schema [("a", Value.str "1")]
      [[("a", Value.str "2"), ("b", Value.str "3")]] ',' true).2 (by decide)⟩

/-- Claim C2, counterexample: a second record carrying the extra key
`"b"` is not silently dropped — the conversion raises (returns no
output), where the claim predicts success with `"b"` dropped. -/
theorem c2_extra_key_counterexample :
    (convert_to_csv [[("a", Value.str "1")], [("a", Value.str "2"), ("b", Value.str "3")]]
      "," true).isOk = false := by decide

/-- Claim C8 (amended). A field is emitted quoted (with internal quote
characters doubled) exactly when it contains the delimiter, a CR or LF,
or a quote character — EXCEPT that a record consisting of exactly one
empty field is emitted as a quoted empty field `""` even though minimal
quoting would not require it; changing the delimiter changes only the
separator: with `";"` the value `a;b` is quoted, with `","` it is not. -/
theorem c8_minimal_quoting :
    (∀ (d : Char) (fs : List String),
      encRowS d fs =
        (if fs = [""] then ['"', '"']
         else joinSep d (fs.map (fun s => specMinQuote d s))) ++ ['\r', '\n']) ∧
    (∀ (d : Char) (s : String), encFieldL d s.data = specMinQuote d s) ∧
    (convert_to_csv [[("v", Value.str "a;b")]] ";" false = .ok "\"a;b\"\r\n") ∧
    (convert_to_csv [[("v", Value.str "a;b")]] "," false = .ok "a;b\r\n") := by
  refine ⟨fun d fs => ?_, fun d s => rfl, by decide, by decide⟩
  unfold encRowS encRowL
  cases fs with
  | nil => rfl
  | cons f gs =>
    cases gs with
    | nil =>
      obtain ⟨l⟩ := f
      cases l with
      | nil => rfl
      | cons c cs => rfl
    | cons g hs =>
      rw [if_neg (by simp : ¬ (f :: g :: hs = [""]))]
      rw [List.map_map]
      rfl

/-- Claim C9. Round trip: for a non-empty record sequence in which
every record has exactly the first record's key set, encoding with
headers and any single-character delimiter that is not the quote
character or a line-break character, then parsing with the standard
parser over the same dialect, reproduces the header row (the first
record's keys in order) followed by every record's values, stringified,
under the first record's column order. -/
theorem c9_roundtrip (first : Row) (rest : List Row) (d : Char)
    (hd1 : d ≠ '"') (hd2 : d ≠ '\r') (_hd3 : d ≠ '\n')
    (hkeys : ∀ row ∈ (first :: rest),
      (∀ k ∈ rowKeys row, k ∈ rowKeys first) ∧ ∀ k ∈ rowKeys first, k ∈ rowKeys row) :
    (convert_to_csv (first :: rest) (String.singleton d) true).toOption.map (parseCSV d) =
      some (rowKeys first :: (first :: rest).map (fun row =>
        (rowKeys first).map (fun k => (dictGet row k).toField))) := by
  have hsub : ∀ row ∈ (first :: rest), ∀ kv ∈ row, kv.1 ∈ rowKeys first := by
    intro row hrow kv hkv
    exact (hkeys row hrow).1 kv.1 (List.mem_map_of_mem Prod.fst hkv)
  rw [convert_to_csv_ok_of_keys first rest d true hsub]
  show some (parseCSV d (specPositionalEncode (first :: rest) d true)) = _
  apply congrArg some
  have hmm : (first :: rest).map (fun row =>
        encRowS d ((rowKeys first).map (fun k => (dictGet row k).toField))) =
      ((first :: rest).map (fun row =>
        (rowKeys first).map (fun k => (dictGet row k).toField))).map (encRowS d) := by
    rw [List.map_map]
    rfl
  have hspec : specPositionalEncode (first :: rest) d true =
      String.mk (catL ((rowKeys first :: (first :: rest).map (fun row =>
        (rowKeys first).map (fun k => (dictGet row k).toField))).map (encRowS d))) := by
    unfold specPositionalEncode
    dsimp only
    rw [hmm]
    rfl
  rw [hspec, parse_encoded_rows d hd1 hd2]

theorem c9_roundtrip_witness :
    (convert_to_csv
        [[("name", Value.str "Alice"), ("age", Value.int 30)],
         [("name", Value.str "Bob"), ("age", Value.int 25)]]
        (String.singleton ',') true).toOption.map (parseCSV ',') =
      some (rowKeys [("name", Value.str "Alice"), ("age", Value.int 30)] ::
        ([[("name", Value.str "Alice"), ("age", Value.int 30)],
          [("name", Value.str "Bob"), ("age", Value.int 25)]].map (fun row =>
          (rowKeys [("name", Value.str "Alice"), ("age", Value.int 30)]).map
            (fun k => (dictGet row k).toField)))) :=
  c9_roundtrip [("name", Value.str "Alice"), ("age", Value.int 30)]
    [[("name", Value.str "Bob"), ("age", Value.int 25)]] ','
    (by decide) (by decide) (by decide) (by decide)

/-- Claim C8, counterexample: the sole field of the record is the empty
string, which contains no delimiter, newline or quote, yet the encoder
emits it quoted (`""`), so "quoted if and only if required" fails in the
only-if direction. -/
theorem c8_sole_empty_field_counterexample :
    (convert_to_csv [[("a", Value.str "")]] "," false = .ok "\"\"\r\n") ∧
    specNeedsQuote ',' "" = false := by decide

theorem frac_natDiv (num den : ℕ) (hden : 0 < den) :
    (num : ℚ) / den - ((num / den : ℕ) : ℚ) = ((num % den : ℕ) : ℚ) / den := by
  have hdQ : (den : ℚ) ≠ 0 := Nat.cast_ne_zero.mpr hden.ne'
  have hmod : ((den * (num / den) + num % den : ℕ) : ℚ) = (num : ℚ) := by
    exact_mod_cast congrArg (Nat.cast : ℕ → ℚ) (Nat.div_add_mod num den)
  field_simp
  push_cast at hmod ⊢
  linarith [hmod]

theorem roundQ_natDiv (num den : ℕ) (hden : 0 < den) :
    roundQ ((num : ℚ) / den) = (roundHalfEvenND num den : ℤ) := by
  have hdQ : (0 : ℚ) < den := by exact_mod_cast hden
  have hfloor : ⌊(num : ℚ) / den⌋ = ((num / den : ℕ) : ℤ) := by
    rw [← Int.natCast_floor_eq_floor (by positivity), Nat.floor_div_eq_div]
  have hfrac := frac_natDiv num den hden
  have hc1 : ((num : ℚ) / den - ((num / den : ℕ) : ℚ) < 1 / 2) ↔
      2 * (num % den) < den := by
    rw [hfrac, div_lt_div_iff₀ hdQ (by norm_num : (0 : ℚ) < 2),
      show ((num % den : ℕ) : ℚ) * 2 = ((2 * (num % den) : ℕ) : ℚ) by push_cast; ring,
      show (1 : ℚ) * den = ((den : ℕ) : ℚ) by ring]
    exact Nat.cast_lt
  have hc2 : (1 / 2 < (num : ℚ) / den - ((num / den : ℕ) : ℚ)) ↔
      den < 2 * (num % den) := by
    rw [hfrac, div_lt_div_iff₀ (by norm_num : (0 : ℚ) < 2) hdQ,
      show ((num % den : ℕ) : ℚ) * 2 = ((2 * (num % den) : ℕ) : ℚ) by push_cast; ring,
      show (1 : ℚ) * den = ((den : ℕ) : ℚ) by ring]
    exact Nat.cast_lt
  have hpar : (((num / den : ℕ) : ℤ) % 2 = 0) ↔ (num / den) % 2 = 0 := by omega
  unfold roundQ
  simp only [hfloor, Int.cast_natCast, roundHalfEvenND]
  simp only [hc1, hc2, hpar]
  split_ifs <;> push_cast <;> ring

theorem toString_int_ofNat (n : ℕ) : toString ((n : ℕ) : ℤ) = toString n := rfl

theorem specFmt0_natDiv (num den : ℕ) (hden : 0 < den) :
    specFmt0 ((num : ℚ) / den) = fmt0 num den := by
  unfold specFmt0 fmt0
  rw [roundQ_natDiv num den hden, toString_int_ofNat]

theorem specFmt2_natDiv (num den : ℕ) (hden : 0 < den) :
    specFmt2 ((num : ℚ) / den) = fmt2 num den := by
  unfold specFmt2 fmt2
  have harg : ((num : ℚ) / den) * 100 = ((100 * num : ℕ) : ℚ) / ((den : ℕ) : ℚ) := by
    push_cast; ring
  rw [harg, roundQ_natDiv (100 * num) den hden]
  have h1 : ((roundHalfEvenND (100 * num) den : ℕ) : ℤ) / 100 =
      ((roundHalfEvenND (100 * num) den / 100 : ℕ) : ℤ) := by omega
  have h2 : ((roundHalfEvenND (100 * num) den : ℕ) : ℤ) % 100 =
      ((roundHalfEvenND (100 * num) den % 100 : ℕ) : ℤ) := by omega
  rw [h1, h2, Int.toNat_natCast]
  rfl

/-- Claim C5. The reported size string follows the spec's `ℚ`-level
formula on `kb = utf8-byte-length / 1024`: `"1 KB"` when `kb < 1`, `kb`
rounded to 0 decimal places (ties to even, as Python's float formatting
rounds) suffixed `" KB"` when `1 ≤ kb < 1024`, else `kb / 1024` rounded
to 2 decimal places suffixed `" MB"`; and the three boundary examples:
500 bytes → "1 KB", 2048 bytes → "2 KB", 2097152 bytes → "2.00 MB". -/
theorem c5_size_string :
    (∀ content : String,
      get_file_size_string content =
        (if ((content.utf8ByteSize : ℚ) / 1024) < 1 then "1 KB"
         else if ((content.utf8ByteSize : ℚ) / 1024) < 1024 then
           specFmt0 ((content.utf8ByteSize : ℚ) / 1024) ++ " KB"
         else specFmt2 ((content.utf8ByteSize : ℚ) / 1024 / 1024) ++ " MB")) ∧
    sizeStringOfBytes 500 = "1 KB" ∧ sizeStringOfBytes 2048 = "2 KB" ∧
    sizeStringOfBytes 2097152 = "2.00 MB" := by
  refine ⟨fun content => ?_, by decide, by decide, by decide⟩
  show sizeStringOfBytes content.utf8ByteSize = _
  set b := content.utf8ByteSize with hb
  have e1 : ((b : ℚ) / 1024 < 1) ↔ b < 1024 := by
    rw [div_lt_one (by norm_num : (0 : ℚ) < 1024)]
    exact_mod_cast Iff.rfl
  have e2 : ((b : ℚ) / 1024 < 1024) ↔ b < 1024 * 1024 := by
    rw [div_lt_iff₀ (by norm_num : (0 : ℚ) < 1024)]
    constructor
    · intro h; exact_mod_cast h
    · intro h; exact_mod_cast h
  unfold sizeStringOfBytes
  by_cases h1 : b < 1024
  · rw [if_pos (by omega : b < 1024 * 1024), if_neg (by omega : ¬ 1024 ≤ b),
      if_pos (e1.mpr h1)]
  · by_cases h2 : b < 1024 * 1024
    · rw [if_pos h2, if_pos (by omega : 1024 ≤ b), if_neg (by rw [e1]; omega),
        if_pos (e2.mpr h2)]
      have hcast : (b : ℚ) / 1024 = (b : ℚ) / ((1024 : ℕ) : ℚ) := by norm_num
      rw [hcast, specFmt0_natDiv b 1024 (by norm_num)]
    · rw [if_neg h2, if_neg (by rw [e1]; omega), if_neg (by rw [e2]; omega)]
      have hcast : (b : ℚ) / 1024 / 1024 = (b : ℚ) / ((1024 * 1024 : ℕ) : ℚ) := by
        push_cast; ring
      rw [hcast, specFmt2_natDiv b (1024 * 1024) (by norm_num)]

/-- Claim C4 (amended). The generated name is always
`{sanitized}_{uuid}.csv`: whenever the handler's preparation succeeds,
the full filename it returns is `full_filename_of` of the filename
argument defaulted with `arguments.get("filename", "output")`. An
absent filename therefore yields `output_<uuid>.csv`; but an explicitly
empty filename string is NOT defaulted — it sanitizes to the empty
string and the generated name is `_<uuid>.csv`. -/
theorem c4_filename_composition :
    (∀ (args : ExportArgs) (uuid : String) (v : String × String × String),
      exportPrepare args uuid = .ok v →
        v.1 = full_filename_of (args.filename.getD "output") uuid) ∧
    (∀ uuid : String, full_filename_of "output" uuid = "output_" ++ uuid ++ ".csv") ∧
    (∀ uuid : String, full_filename_of "" uuid = "_" ++ uuid ++ ".csv") := by
  refine ⟨fun args uuid v h => exportPrepare_ok_filename h, fun uuid => ?_, fun uuid => ?_⟩
  · show sanitize "output" ++ "_" ++ uuid ++ ".csv" = "output_" ++ uuid ++ ".csv"
    have h1 : sanitize "output" = "output" := by decide
    rw [h1]
    apply congrArg (· ++ ".csv")
    apply congrArg (· ++ uuid)
    rfl
  · show sanitize "" ++ "_" ++ uuid ++ ".csv" = "_" ++ uuid ++ ".csv"
    have h1 : sanitize "" = "" := by decide
    rw [h1]
    apply congrArg (· ++ ".csv")
    apply congrArg (· ++ uuid)
    rfl

theorem c4_filename_composition_witness :
    ("output_u.csv", "1 KB", "a\r\n1\r\n").1 =
      full_filename_of ((none : Option String).getD "output") "u" :=
  c4_filename_composition.1 ⟨.pyList [[("a", Value.str "1")]], none, none, none⟩ "u"
    ("output_u.csv", "1 KB", "a\r\n1\r\n") (by decide)

/-- Claim C4, counterexample: a request whose `filename` is the empty
string does not get the `"output"` default — `arguments.get` only
defaults an absent key — so the generated name is `_<uuid>.csv`, which
does not match `output_<uuid>.csv`. -/
theorem c4_empty_filename_counterexample :
    ((handle_csv_export ⟨.pyList [[("a", Value.str "1")]], some "", none, none⟩
        "u" (.ok ())).1 =
      [("path", JValue.str "_u.csv"), ("filetype", JValue.str "text/csv"),
       ("filename", JValue.str "_u.csv"), ("filesize", JValue.str "1 KB")]) ∧
    "_u.csv" ≠ "output_" ++ "u" ++ ".csv" := by
  constructor
  · rfl
  · decide

end CsvExport
